import Mathlib

/-!
Verification of the audio segmentation and streaming transcription pipeline
of `src/backend/main.py`.

We shallowly embed the code's core:
* the per-connection `AudioProcessor` (sliding stream buffer with duplicate
  suppression), from `add_audio` / `_process_buffer`;
* the fixed-window chunker and batch pipeline of `process_file`;
* the per-chunk recognition wrapper `process_audio_chunk`;
* the empty-text check of the `extract_audio` endpoint.

Audio samples are modelled as `List Int` (the int16 values); the external
Google recognizer is an opaque parameter `recognize : List Int → RecResult`.
`AudioSegment` millisecond slicing is modelled as list slicing (one element
per millisecond position), which is all the chunker's arithmetic depends on.
-/

namespace SpeechToText

/-- Outcome of one call to the opaque external recognizer, mirroring the
`try/except` structure around `recognizer.recognize_google`:
a returned text, `sr.UnknownValueError` (no speech detected), or
`sr.RequestError` (service unavailable). -/
inductive RecResult where
  | success (text : String)
  | unknownValue
  | requestError
deriving DecidableEq, Repr

/-- `process_audio_chunk` (main.py lines 40–65): runs recognition on one
chunk; `UnknownValueError` and `RequestError` are both absorbed into an
empty string result (the `RequestError` is additionally logged). -/
def processAudioChunk (recognize : List Int → RecResult) (chunkData : List Int) : String :=
  match recognize chunkData with
  | .success t => t
  | .unknownValue => ""
  | .requestError => ""

/-! ## Sliding stream buffer (`AudioProcessor`, main.py lines 279–366) -/

/-- State of the per-connection `AudioProcessor`: the list of buffered sample
blocks, the running sample counter, the last emitted text (for duplicate
suppression), and the debug chunk counter. -/
structure AudioProcessor where
  buffer : List (List Int)
  samplesCollected : Nat
  lastText : String
  chunkCount : Nat
deriving DecidableEq, Repr

/-- Initial `AudioProcessor` state (main.py `__init__`, lines 280–291). -/
def AudioProcessor.init : AudioProcessor :=
  { buffer := [], samplesCollected := 0, lastText := "", chunkCount := 0 }

/-- `self.min_samples_to_process = 80000` (main.py line 290): 5 seconds at
16000 Hz. -/
def minSamplesToProcess : Nat := 80000

/-- The context retention length hard-coded in `_process_buffer`
(main.py lines 356–357): 40000 samples, 2.5 seconds at 16000 Hz. -/
def contextRetentionSamples : Nat := 40000

/-- The pending samples actually held by the buffer: the concatenation of
all buffered blocks (what `np.concatenate(self.buffer)` produces). -/
def AudioProcessor.pendingSamples (p : AudioProcessor) : List Int :=
  p.buffer.flatten

/-- The duplicate-suppression logic of `_process_buffer`
(main.py lines 340–346): given the stored `last_text` and a freshly
recognized `text`, decide whether to emit, and compute the new `last_text`.
Python's `if text and text != self.last_text` is: `text` non-empty and
different from `last_text`; only then is `last_text` updated. -/
def shouldEmit (lastText text : String) : Bool × String :=
  if text ≠ "" ∧ text ≠ lastText then (true, text) else (false, lastText)

/-- `_process_buffer` (main.py lines 307–366). Returns the chunk handed to
recognition (`full_audio = np.concatenate(self.buffer)`), the optionally
emitted text, and the post-transition state. The `finally` block keeps the
trailing 40000 samples when more than 40000 are held, and clears the buffer
otherwise. -/
def processBuffer (recognize : List Int → RecResult) (p : AudioProcessor) :
    List Int × Option String × AudioProcessor :=
  let fullAudio := p.buffer.flatten
  let emitted : Option String × String :=
    match recognize fullAudio with
    | .success text =>
        match shouldEmit p.lastText text with
        | (true, nl) => (some text, nl)
        | (false, nl) => (none, nl)
    | .unknownValue => (none, p.lastText)
    | .requestError => (none, p.lastText)
  let retained : List (List Int) × Nat :=
    if p.samplesCollected > contextRetentionSamples then
      let lastSamples := fullAudio.drop (fullAudio.length - contextRetentionSamples)
      ([lastSamples], lastSamples.length)
    else ([], 0)
  (fullAudio, emitted.1,
    { buffer := retained.1, samplesCollected := retained.2,
      lastText := emitted.2, chunkCount := p.chunkCount + 1 })

/-- The buffer/counter update at the top of `add_audio`
(main.py lines 295–299): append the incoming block and add its sample count
to `samples_collected`. -/
def AudioProcessor.appendBlock (p : AudioProcessor) (block : List Int) : AudioProcessor :=
  { p with buffer := p.buffer ++ [block],
           samplesCollected := p.samplesCollected + block.length }

/-- `add_audio` (main.py lines 293–305): append the incoming block to the
buffer, bump the counter, and process the buffer once at least
`min_samples_to_process` samples are held. The first component is the chunk
handed off for recognition (when any). -/
def addAudio (recognize : List Int → RecResult) (p : AudioProcessor) (block : List Int) :
    Option (List Int) × Option String × AudioProcessor :=
  let p' := p.appendBlock block
  if p'.samplesCollected ≥ minSamplesToProcess then
    let r := processBuffer recognize p'
    (some r.1, r.2.1, r.2.2)
  else
    (none, none, p')

/-- Folding a sequence of incoming blocks through `add_audio`, as the
websocket receive loop does (main.py lines 371–381). -/
def runAdds (recognize : List Int → RecResult) (blocks : List (List Int))
    (p : AudioProcessor) : AudioProcessor :=
  blocks.foldl (fun st b => (addAudio recognize st b).2.2) p

/-- The counter/content invariant of the stream buffer:
`samples_collected` equals the number of samples actually held. -/
def AudioProcessor.Inv (p : AudioProcessor) : Prop :=
  p.samplesCollected = p.pendingSamples.length

theorem AudioProcessor.appendBlock_samplesCollected (p : AudioProcessor) (block : List Int) :
    (p.appendBlock block).samplesCollected = p.samplesCollected + block.length := rfl

theorem AudioProcessor.appendBlock_pendingSamples (p : AudioProcessor) (block : List Int) :
    (p.appendBlock block).pendingSamples = p.pendingSamples ++ block := by
  simp [AudioProcessor.appendBlock, AudioProcessor.pendingSamples]

theorem addAudio_below_threshold (recognize : List Int → RecResult)
    (p : AudioProcessor) (block : List Int)
    (h : p.samplesCollected + block.length < minSamplesToProcess) :
    addAudio recognize p block = (none, none, p.appendBlock block) := by
  simp only [addAudio, AudioProcessor.appendBlock_samplesCollected]
  rw [if_neg (by omega)]

theorem addAudio_at_threshold (recognize : List Int → RecResult)
    (p : AudioProcessor) (block : List Int)
    (h : p.samplesCollected + block.length ≥ minSamplesToProcess) :
    addAudio recognize p block =
      (some (p.pendingSamples ++ block),
        (processBuffer recognize (p.appendBlock block)).2.1,
        (processBuffer recognize (p.appendBlock block)).2.2) := by
  simp only [addAudio, AudioProcessor.appendBlock_samplesCollected]
  rw [if_pos (by omega)]
  have : (processBuffer recognize (p.appendBlock block)).1 =
      p.pendingSamples ++ block := by
    simp only [processBuffer]
    simp [AudioProcessor.appendBlock, AudioProcessor.pendingSamples]
  rw [this]

theorem processBuffer_pending (recognize : List Int → RecResult) (q : AudioProcessor) :
    ((processBuffer recognize q).2.2).pendingSamples =
      (if q.samplesCollected > contextRetentionSamples then
        q.pendingSamples.drop (q.pendingSamples.length - contextRetentionSamples)
      else []) ∧
    ((processBuffer recognize q).2.2).samplesCollected =
      (if q.samplesCollected > contextRetentionSamples then
        (q.pendingSamples.drop (q.pendingSamples.length - contextRetentionSamples)).length
      else 0) := by
  simp only [processBuffer, AudioProcessor.pendingSamples]
  split <;> simp [AudioProcessor.pendingSamples]

/-- C1: `add_audio` hands a chunk off to recognition exactly when the sample
count after appending the incoming block reaches `min_samples_to_process`
(80000 samples, 5 seconds at 16000 Hz); the handed-off chunk is the full
pending buffer (previous pending samples followed by the new block), and a
call below the threshold returns nothing and only appends the block to the
buffer, adding its length to the counter. -/
theorem addAudio_emits_iff_threshold (recognize : List Int → RecResult)
    (p : AudioProcessor) (block : List Int) :
    (p.samplesCollected + block.length ≥ minSamplesToProcess →
      (addAudio recognize p block).1 = some (p.pendingSamples ++ block)) ∧
    (p.samplesCollected + block.length < minSamplesToProcess →
      addAudio recognize p block = (none, none, p.appendBlock block)) := by
  constructor
  · intro h
    rw [addAudio_at_threshold recognize p block h]
  · intro h
    exact addAudio_below_threshold recognize p block h

theorem addAudio_emits_iff_threshold_witness :
    ((addAudio (fun _ => RecResult.unknownValue) AudioProcessor.init
        (List.replicate 80000 (0 : Int))).1
      = some (AudioProcessor.init.pendingSamples ++ List.replicate 80000 (0 : Int))) ∧
    (addAudio (fun _ => RecResult.unknownValue) AudioProcessor.init [(1 : Int)] =
      (none, none, AudioProcessor.init.appendBlock [(1 : Int)])) :=
  ⟨(addAudio_emits_iff_threshold _ _ _).1
      (by rw [List.length_replicate]; decide),
   (addAudio_emits_iff_threshold _ _ _).2 (by decide)⟩

/-- C2: after a chunk is emitted, the buffer retains exactly the trailing
40000 samples (`context_retention`, 2.5 seconds) of the pending samples — at
emission the pending buffer always holds at least 80000 samples, so it is
never shorter than the retention length — and the counter is set to 40000. -/
theorem addAudio_retains_trailing_context (recognize : List Int → RecResult)
    (p : AudioProcessor) (block : List Int)
    (hinv : p.samplesCollected = p.pendingSamples.length)
    (h : p.samplesCollected + block.length ≥ minSamplesToProcess) :
    ((addAudio recognize p block).2.2).pendingSamples =
      (p.pendingSamples ++ block).drop
        ((p.pendingSamples ++ block).length - contextRetentionSamples) ∧
    ((addAudio recognize p block).2.2).samplesCollected = contextRetentionSamples ∧
    ((addAudio recognize p block).2.2).pendingSamples.length = contextRetentionSamples := by
  rw [addAudio_at_threshold recognize p block h]
  have hpb := processBuffer_pending recognize (p.appendBlock block)
  rw [AudioProcessor.appendBlock_pendingSamples] at hpb
  have hmin : minSamplesToProcess = 80000 := rfl
  have hctx : contextRetentionSamples = 40000 := rfl
  have hgt : (p.appendBlock block).samplesCollected > contextRetentionSamples := by
    rw [AudioProcessor.appendBlock_samplesCollected]
    omega
  have hlen : (p.pendingSamples ++ block).length =
      p.samplesCollected + block.length := by
    simp [hinv]
  rw [if_pos hgt, if_pos hgt] at hpb
  refine ⟨hpb.1, ?_, ?_⟩
  · rw [hpb.2, List.length_drop, hlen]
    omega
  · rw [hpb.1, List.length_drop, hlen]
    omega

theorem addAudio_retains_trailing_context_witness :
    ((addAudio (fun _ => RecResult.unknownValue) AudioProcessor.init
        (List.replicate 80000 (0 : Int))).2.2).samplesCollected =
      contextRetentionSamples :=
  (addAudio_retains_trailing_context (fun _ => RecResult.unknownValue)
    AudioProcessor.init (List.replicate 80000 (0 : Int))
    rfl
    (by rw [List.length_replicate]; decide)).2.1

theorem addAudio_preserves_inv (recognize : List Int → RecResult)
    (p : AudioProcessor) (block : List Int) (hp : p.Inv) :
    ((addAudio recognize p block).2.2).Inv := by
  by_cases h : p.samplesCollected + block.length ≥ minSamplesToProcess
  · rw [addAudio_at_threshold recognize p block h]
    have hpb := processBuffer_pending recognize (p.appendBlock block)
    unfold AudioProcessor.Inv
    rw [hpb.1, hpb.2]
    split <;> simp
  · rw [addAudio_below_threshold recognize p block (by omega)]
    unfold AudioProcessor.Inv at hp ⊢
    rw [AudioProcessor.appendBlock_samplesCollected,
      AudioProcessor.appendBlock_pendingSamples, List.length_append, hp]

theorem runAdds_inv (recognize : List Int → RecResult)
    (blocks : List (List Int)) (p : AudioProcessor) (hp : p.Inv) :
    (runAdds recognize blocks p).Inv := by
  induction blocks generalizing p with
  | nil => exact hp
  | cons b rest ih =>
      exact ih _ (addAudio_preserves_inv recognize p b hp)

/-- C3: after any sequence of `add_audio` calls starting from the initial
state, `samples_collected` equals the length of the pending samples actually
held in the buffer — including after the post-emission retention
transition (any prefix of a call sequence is itself such a sequence). -/
theorem runAdds_counter_matches_buffer (recognize : List Int → RecResult)
    (blocks : List (List Int)) :
    (runAdds recognize blocks AudioProcessor.init).samplesCollected =
      (runAdds recognize blocks AudioProcessor.init).pendingSamples.length :=
  runAdds_inv recognize blocks AudioProcessor.init rfl

/-- C4: the duplicate-suppression check of `_process_buffer` returns true
exactly when the recognized text is non-empty and differs from the stored
`last_text`; it stores the new text exactly on true, leaves the stored text
unchanged on false, returns false for a repeat of the stored text (so two
consecutive identical non-empty texts give true then false), and always
returns false for empty text. -/
theorem shouldEmit_spec (lastText text : String) :
    ((shouldEmit lastText text).1 = true ↔ text ≠ "" ∧ text ≠ lastText) ∧
    ((shouldEmit lastText text).1 = true → (shouldEmit lastText text).2 = text) ∧
    ((shouldEmit lastText text).1 = false → (shouldEmit lastText text).2 = lastText) ∧
    (shouldEmit text text = (false, text)) ∧
    (shouldEmit lastText "" = (false, lastText)) := by
  unfold shouldEmit
  by_cases h1 : text = "" <;> by_cases h2 : text = lastText <;> simp [h1, h2]

theorem shouldEmit_spec_witness :
    (shouldEmit "prev" "hello").2 = "hello" ∧
    shouldEmit "prev" "" = (false, "prev") :=
  ⟨(shouldEmit_spec "prev" "hello").2.1 (by decide),
   (shouldEmit_spec "prev" "hello").2.2.2.2⟩

/-! ## Fixed-window chunker (`process_file`, main.py lines 67–106) -/

/-- The start offsets of `for start_ms in range(0, totalDurationMs, step)`
for a positive `step`: the multiples `i * step` with `i * step < totalDurationMs`,
i.e. `i < ⌈totalDurationMs / step⌉`. -/
def chunkStarts (totalDurationMs step : Nat) : List Nat :=
  (List.range ((totalDurationMs + step - 1) / step)).map (fun i => i * step)

/-- The chunk windows of `process_file` (main.py lines 82–84): each start
offset is paired with `end_ms = min(start_ms + chunk_duration_ms,
total_duration_ms)`. -/
def chunkWindows (totalDurationMs chunkDurationMs overlapMs : Nat) : List (Nat × Nat) :=
  (chunkStarts totalDurationMs (chunkDurationMs - overlapMs)).map
    (fun s => (s, min (s + chunkDurationMs) totalDurationMs))

theorem chunkWindows_length (total dur overlap : Nat) :
    (chunkWindows total dur overlap).length =
      (total + (dur - overlap) - 1) / (dur - overlap) := by
  simp [chunkWindows, chunkStarts]

theorem chunkWindows_getElem (total dur overlap i : Nat)
    (hi : i < (chunkWindows total dur overlap).length) :
    (chunkWindows total dur overlap)[i] =
      (i * (dur - overlap), min (i * (dur - overlap) + dur) total) := by
  simp [chunkWindows, chunkStarts]

theorem chunkWindows_getD (total dur overlap i : Nat)
    (hi : i < (chunkWindows total dur overlap).length) :
    (chunkWindows total dur overlap).getD i (0, 0) =
      (i * (dur - overlap), min (i * (dur - overlap) + dur) total) := by
  rw [List.getD_eq_getElem?_getD, List.getElem?_eq_getElem hi,
    Option.getD_some, chunkWindows_getElem total dur overlap i hi]

theorem mem_chunkWindows (total dur overlap : Nat) (w : Nat × Nat) :
    w ∈ chunkWindows total dur overlap ↔
      ∃ i < (total + (dur - overlap) - 1) / (dur - overlap),
        w = (i * (dur - overlap), min (i * (dur - overlap) + dur) total) := by
  simp only [chunkWindows, chunkStarts, List.mem_map, List.mem_range]
  constructor
  · rintro ⟨s, ⟨i, hi, rfl⟩, rfl⟩
    exact ⟨i, hi, rfl⟩
  · rintro ⟨i, hi, rfl⟩
    exact ⟨i * (dur - overlap), ⟨i, hi, rfl⟩, rfl⟩

theorem lt_numWindows_iff (i total step : Nat) (hs : 0 < step) :
    i < (total + step - 1) / step ↔ i * step < total := by
  constructor
  · intro h
    have h2 := (Nat.le_div_iff_mul_le hs).mp h
    have h3 : (i + 1) * step = i * step + step := by ring
    rw [h3] at h2
    generalize i * step = A at h2 ⊢
    omega
  · intro h
    refine (Nat.le_div_iff_mul_le hs).mpr ?_
    have h3 : (i + 1) * step = i * step + step := by ring
    rw [h3]
    generalize i * step = A at h ⊢
    omega

/-- C5: for a non-empty signal and `overlapMs < chunkDurationMs`, the
fixed-window chunker's start offsets advance by exactly
`chunkDurationMs - overlapMs` per window and strictly increase, every window
ends at or before the signal's end, the final window ends exactly at the
signal's end (truncated, not padded), and the windows' union covers the
whole signal. -/
theorem chunkWindows_spec (total dur overlap : Nat)
    (hov : overlap < dur) (htot : 0 < total) :
    (∀ i, i + 1 < (chunkWindows total dur overlap).length →
      ((chunkWindows total dur overlap).getD (i + 1) (0, 0)).1 =
        ((chunkWindows total dur overlap).getD i (0, 0)).1 + (dur - overlap) ∧
      ((chunkWindows total dur overlap).getD i (0, 0)).1 <
        ((chunkWindows total dur overlap).getD (i + 1) (0, 0)).1) ∧
    (∀ w ∈ chunkWindows total dur overlap, w.2 ≤ total) ∧
    (chunkWindows total dur overlap ≠ [] ∧
      ((chunkWindows total dur overlap).getD
        ((chunkWindows total dur overlap).length - 1) (0, 0)).2 = total) ∧
    (∀ t, t < total → ∃ w ∈ chunkWindows total dur overlap, w.1 ≤ t ∧ t < w.2) := by
  have hs : 0 < dur - overlap := by omega
  have hlen := chunkWindows_length total dur overlap
  refine ⟨?_, ?_, ⟨?_, ?_⟩, ?_⟩
  · intro i hi1
    have hi : i < (chunkWindows total dur overlap).length := by omega
    rw [chunkWindows_getD total dur overlap i hi,
      chunkWindows_getD total dur overlap (i + 1) hi1]
    have h3 : (i + 1) * (dur - overlap) = i * (dur - overlap) + (dur - overlap) := by
      ring
    constructor
    · show (i + 1) * (dur - overlap) = i * (dur - overlap) + (dur - overlap)
      exact h3
    · show i * (dur - overlap) < (i + 1) * (dur - overlap)
      rw [h3]
      generalize i * (dur - overlap) = A
      omega
  · intro w hw
    rcases (mem_chunkWindows total dur overlap w).mp hw with ⟨i, _, rfl⟩
    exact Nat.min_le_right _ _
  · intro hnil
    have h0 : 0 < (chunkWindows total dur overlap).length := by
      rw [hlen]
      refine Nat.div_pos (by omega) hs
    rw [hnil] at h0
    simp at h0
  · set step := dur - overlap with hstep
    set n := (total + step - 1) / step with hn
    have hnpos : 0 < n := Nat.div_pos (by omega) hs
    have hilt : n - 1 < (chunkWindows total dur overlap).length := by
      rw [hlen]
      omega
    rw [hlen, chunkWindows_getD total dur overlap (n - 1) hilt]
    show min ((n - 1) * step + dur) total = total
    have hdm := Nat.div_mul_le_self (total + step - 1) step
    have hup : total + step - 1 < (n - 1 + 1) * step + step := by
      have h1 : n - 1 + 1 = n := Nat.succ_pred_eq_of_pos hnpos
      rw [h1]
      have hmod := Nat.div_add_mod (total + step - 1) step
      have hr : (total + step - 1) % step < step := Nat.mod_lt _ hs
      rw [Nat.mul_comm] at hmod
      rw [← hn] at hmod
      generalize n * step = B at hmod ⊢
      generalize (total + step - 1) % step = r at hmod hr
      omega
    have hge : total ≤ (n - 1) * step + dur := by
      have h2 : (n - 1 + 1) * step = (n - 1) * step + step := by ring
      rw [h2] at hup
      generalize (n - 1) * step = A at hup ⊢
      omega
    exact Nat.min_eq_right hge
  · intro t ht
    set step := dur - overlap with hstep
    have hq1 : t / step * step ≤ t := Nat.div_mul_le_self t step
    have hq2 : t < t / step * step + step := by
      have hmod := Nat.div_add_mod t step
      have hr : t % step < step := Nat.mod_lt _ hs
      rw [Nat.mul_comm] at hmod
      generalize t / step * step = A at hmod ⊢
      generalize t % step = r at hmod hr
      omega
    have hlt : t / step * step < total := lt_of_le_of_lt hq1 ht
    have hi : t / step < (total + step - 1) / step :=
      (lt_numWindows_iff (t / step) total step hs).mpr hlt
    refine ⟨(t / step * step, min (t / step * step + dur) total), ?_, hq1, ?_⟩
    · exact (mem_chunkWindows total dur overlap _).mpr ⟨t / step, hi, rfl⟩
    · refine lt_min ?_ ht
      have hsd : step ≤ dur := by omega
      generalize hA : t / step * step = A at hq2 ⊢
      omega

theorem chunkWindows_spec_witness :
    (2 : Nat) < 4 ∧ (0 : Nat) < 10 ∧
    (chunkWindows 10 4 2 ≠ [] ∧
      ((chunkWindows 10 4 2).getD ((chunkWindows 10 4 2).length - 1) (0, 0)).2 = 10) :=
  ⟨by decide, by decide, (chunkWindows_spec 10 4 2 (by decide) (by decide)).2.2.1⟩

/-! ## Batch pipeline (`process_file`, main.py lines 67–110) -/

/-- The error taxonomy for the batch path. `configurationError` is the
spec's pre-validated configuration rejection; `internalError` is a Python
exception raised mid-processing (logged and re-raised by the
`except ... raise` at main.py lines 108–110). The code itself only ever
produces `internalError`s. -/
inductive ProcError where
  | configurationError (msg : String)
  | internalError (msg : String)
deriving DecidableEq, Repr

/-- Is the outcome of the batch path a configuration error? -/
def isConfigurationError : Except ProcError String → Bool
  | .error (.configurationError _) => true
  | _ => false

/-- Python slicing `audio[start:end]` (pydub slices by millisecond
position). -/
def listSlice (l : List Int) (s e : Nat) : List Int :=
  (l.take e).drop s

/-- The chunk raw data computed by the loop at main.py lines 82–85: one
slice per start offset produced by `range(0, total, step)`. -/
def fileChunks (audio : List Int) (chunkDurationMs step : Nat) : List (List Int) :=
  (chunkStarts audio.length step).map
    (fun s => listSlice audio s (min (s + chunkDurationMs) audio.length))

/-- The result gathering of main.py lines 97–106: each future's text is
appended only when non-empty (`if text:`), and the kept texts are joined
with single spaces. -/
def joinBatch (recognize : List Int → RecResult) (chunks : List (List Int)) : String :=
  String.intercalate " "
    ((chunks.map (processAudioChunk recognize)).filter (fun t => t ≠ ""))

/-- `process_file` (main.py lines 67–110) with `overlap_ms = 2000`
hard-coded (line 81) and `chunk_duration_ms` a parameter (default 30000).
Python behaviour at the boundaries, mirrored here:
* `chunk_duration_ms = 2000` makes the range step zero, so `range` raises
  `ValueError` (an unexpected internal error, re-raised by line 110);
* `chunk_duration_ms < 2000` makes the step negative, so the range — hence
  the chunk list — is empty;
* `ThreadPoolExecutor` (line 90) raises `ValueError` when
  `min(os.cpu_count(), len(chunks))` is zero.
No parameter validation happens before processing. -/
def processFile (cpuCount : Nat) (recognize : List Int → RecResult)
    (audio : List Int) (chunkDurationMs : Nat) : Except ProcError String :=
  if chunkDurationMs = 2000 then
    .error (.internalError "range() arg 3 must not be zero")
  else
    let chunks :=
      if chunkDurationMs < 2000 then []
      else fileChunks audio chunkDurationMs (chunkDurationMs - 2000)
    if min cpuCount chunks.length = 0 then
      .error (.internalError "max_workers must be greater than 0")
    else
      .ok (joinBatch recognize chunks)

/-- The empty-transcript check of the `extract_audio` endpoint
(main.py lines 259–261): an empty recognized text becomes a raised
exception, which the handler at lines 269–271 re-raises to the caller. -/
def extractAudioTextCheck (text : String) : Except String String :=
  if text = "" then
    .error "Could not extract any text from the audio. Please ensure the audio is clear and contains speech."
  else
    .ok text

/-- C6 counterexample: with `chunk_duration_ms = 2000` (overlap equals
duration) the pipeline is not rejected up front as a configuration error;
it fails mid-processing with the internal `range()` ValueError. -/
theorem processFile_no_config_validation_counterexample :
    processFile 4 (fun _ => RecResult.unknownValue) [1, 2, 3] 2000 =
      .error (.internalError "range() arg 3 must not be zero") ∧
    isConfigurationError
      (processFile 4 (fun _ => RecResult.unknownValue) [1, 2, 3] 2000) = false := by
  exact ⟨rfl, rfl⟩

/-- C6 amended: `process_file` performs no parameter validation; whenever
the hard-coded 2000 ms overlap is at least the chunk duration, the run fails
during processing with one of two internal `ValueError`s (zero range step,
or an empty chunk list making the worker pool size zero) — never with a
distinct pre-validated configuration error. -/
theorem processFile_overlap_ge_duration_internal_error (cpuCount : Nat)
    (recognize : List Int → RecResult) (audio : List Int) (chunkDurationMs : Nat)
    (h : chunkDurationMs ≤ 2000) :
    processFile cpuCount recognize audio chunkDurationMs =
        .error (.internalError "range() arg 3 must not be zero") ∨
      processFile cpuCount recognize audio chunkDurationMs =
        .error (.internalError "max_workers must be greater than 0") := by
  by_cases h2 : chunkDurationMs = 2000
  · left
    unfold processFile
    rw [if_pos h2]
  · right
    have h3 : chunkDurationMs < 2000 := by omega
    unfold processFile
    rw [if_neg h2]
    simp [h3]

theorem processFile_overlap_ge_duration_internal_error_witness :
    (1000 : Nat) ≤ 2000 ∧
    (processFile 4 (fun _ => RecResult.unknownValue) [1, 2, 3] 1000 =
        .error (.internalError "range() arg 3 must not be zero") ∨
      processFile 4 (fun _ => RecResult.unknownValue) [1, 2, 3] 1000 =
        .error (.internalError "max_workers must be greater than 0")) :=
  ⟨by decide,
    processFile_overlap_ge_duration_internal_error 4
      (fun _ => RecResult.unknownValue) [1, 2, 3] 1000 (by decide)⟩

/-- C10: on empty input the chunk list is empty, so the worker pool is
constructed with `min(os.cpu_count(), 0) = 0` workers, and the batch path
raises the internal `ValueError` instead of returning an empty
transcription — it is not total on empty input. -/
theorem processFile_empty_input_internal_error (cpuCount : Nat)
    (recognize : List Int → RecResult) :
    processFile cpuCount recognize [] 30000 =
      .error (.internalError "max_workers must be greater than 0") := by
  simp [processFile, fileChunks, chunkStarts]

/-- C8 counterexample: a chunk whose recognition reports ServiceUnavailable
(`sr.RequestError`) produces the bare string `""` as its result — identical
to the result for NoSpeechDetected (`sr.UnknownValueError`); the per-chunk
result is a plain string and carries no ErrorKind at all. -/
theorem processAudioChunk_failure_carries_no_kind :
    processAudioChunk (fun _ => RecResult.requestError) [1, 2] = "" ∧
    processAudioChunk (fun _ => RecResult.unknownValue) [1, 2] = "" ∧
    processAudioChunk (fun _ => RecResult.requestError) [1, 2] =
      processAudioChunk (fun _ => RecResult.unknownValue) [1, 2] :=
  ⟨rfl, rfl, rfl⟩

/-- C8 amended: a chunk whose recognition reports NoSpeechDetected or
ServiceUnavailable does not abort the batch: its result is the empty string
(the error kind is only logged, not carried in the result), it is excluded
from the final joined text, and all remaining chunks are still processed
and joined. -/
theorem joinBatch_failing_chunk_excluded (recognize : List Int → RecResult)
    (pre post : List (List Int)) (c : List Int)
    (h : recognize c = RecResult.unknownValue ∨ recognize c = RecResult.requestError) :
    processAudioChunk recognize c = "" ∧
    joinBatch recognize (pre ++ c :: post) = joinBatch recognize (pre ++ post) := by
  have hc : processAudioChunk recognize c = "" := by
    unfold processAudioChunk
    rcases h with h | h <;> rw [h]
  refine ⟨hc, ?_⟩
  unfold joinBatch
  rw [List.map_append, List.map_append, List.map_cons, hc,
    List.filter_append, List.filter_append, List.filter_cons]
  simp

theorem joinBatch_failing_chunk_excluded_witness :
    processAudioChunk
      (fun l : List Int => if l.length = 1 then RecResult.requestError
        else RecResult.success "ok") [9] = "" ∧
    joinBatch
      (fun l : List Int => if l.length = 1 then RecResult.requestError
        else RecResult.success "ok") ([[1, 2]] ++ [9] :: [[3, 4]]) =
    joinBatch
      (fun l : List Int => if l.length = 1 then RecResult.requestError
        else RecResult.success "ok") ([[1, 2]] ++ [[3, 4]]) :=
  joinBatch_failing_chunk_excluded _ [[1, 2]] [[3, 4]] [9] (Or.inr (by decide))

theorem joinBatch_all_fail (chunks : List (List Int)) :
    joinBatch (fun _ => RecResult.requestError) chunks = "" := by
  unfold joinBatch
  have hfil : ((chunks.map (processAudioChunk (fun _ => RecResult.requestError))).filter
      (fun t => t ≠ "")) = [] := by
    induction chunks with
    | nil => rfl
    | cons c cs ih => simp [processAudioChunk, ih]
  rw [hfil]
  rfl

/-- C9 counterexample: a batch in which every chunk reports
ServiceUnavailable does not produce an explicit EmptyResult indication; the
batch path returns the plain empty string as an ordinary success value. -/
theorem allFailed_batch_returns_plain_empty :
    processFile 4 (fun _ => RecResult.requestError) [0, 0, 0] 30000 = .ok "" :=
  rfl

/-- C9 amended: when every unit fails, `process_file` returns the empty
string as an ordinary success with no explicit empty-result marker; only
the `extract_audio` endpoint checks for empty text, and it reacts by raising
an exception (re-raised to the caller as a hard failure), not by surfacing a
distinct non-fatal "no speech found" outcome. -/
theorem allFailed_batch_empty_string_and_extract_raises (cpuCount : Nat)
    (audio : List Int) (hcpu : 0 < cpuCount) (haudio : audio ≠ []) :
    processFile cpuCount (fun _ => RecResult.requestError) audio 30000 = .ok "" ∧
    extractAudioTextCheck "" = .error
      "Could not extract any text from the audio. Please ensure the audio is clear and contains speech." := by
  refine ⟨?_, rfl⟩
  have hlen1 : 0 < (fileChunks audio 30000 28000).length := by
    unfold fileChunks chunkStarts
    simp only [List.length_map, List.length_range]
    refine Nat.div_pos ?_ (by norm_num)
    have := List.length_pos.mpr haudio
    omega
  simp only [processFile]
  rw [if_neg (by decide)]
  simp only [show ¬((30000 : Nat) < 2000) from by decide, if_false]
  rw [if_neg (Nat.pos_iff_ne_zero.mp (lt_min hcpu hlen1))]
  rw [joinBatch_all_fail]

theorem allFailed_batch_empty_string_and_extract_raises_witness :
    (0 : Nat) < 2 ∧ ([(5 : Int)] ≠ ([] : List Int)) ∧
    processFile 2 (fun _ => RecResult.requestError) [(5 : Int)] 30000 = .ok "" :=
  ⟨by decide, by decide,
    (allFailed_batch_empty_string_and_extract_raises 2 [(5 : Int)]
      (by decide) (by decide)).1⟩

/-! ## Chunk dispatcher ordering (main.py lines 90–106)

`process_file` submits one future per chunk in index order and then gathers
with `for future in futures: future.result()` — i.e. it reads the futures in
submission order, regardless of the order in which the pool completes them.
We model the executor explicitly: futures complete in an arbitrary
`order`, each completion storing `(index, result)` in a table; the gather
then reads index `0, 1, …` from the table, joining non-empty texts exactly
as `joinBatch` does. -/

/-- The table of completed futures: recognition results, completed in
`order` (each entry records which future finished and its result). -/
def futureTable (results : List String) (order : List Nat) : List (Nat × String) :=
  order.map (fun i => (i, results.getD i ""))

/-- Read the futures in submission order; a future that never completed
(index missing from the table) would block forever, modelled as `none`. -/
def gatherFutures (table : List (Nat × String)) : List Nat → Option (List String)
  | [] => some []
  | i :: rest =>
    match table.lookup i, gatherFutures table rest with
    | some t, some ts => some (t :: ts)
    | _, _ => none

/-- The dispatcher: recognition of `chunks` completes in `order`; the final
text joins the non-empty per-chunk results read back in index order. -/
def dispatchJoin (recognize : List Int → RecResult) (chunks : List (List Int))
    (order : List Nat) : Option String :=
  (gatherFutures (futureTable (chunks.map (processAudioChunk recognize)) order)
      (List.range chunks.length)).map
    (fun ts => String.intercalate " " (ts.filter (fun t => t ≠ "")))

theorem lookup_futureTable (results : List String) (order : List Nat) (i : Nat)
    (h : i ∈ order) :
    (futureTable results order).lookup i = some (results.getD i "") := by
  induction order with
  | nil => cases h
  | cons j rest ih =>
    unfold futureTable
    rw [List.map_cons]
    by_cases hij : i = j
    · subst hij
      simp [List.lookup]
    · have hmem : i ∈ rest := by
        rcases List.mem_cons.mp h with h' | h'
        · exact absurd h' hij
        · exact h'
      have hbeq : (i == j) = false := by
        simp [hij]
      simp only [List.lookup, hbeq, cond_false]
      exact ih hmem

theorem gatherFutures_complete (table : List (Nat × String)) (g : Nat → String)
    (idxs : List Nat) (h : ∀ i ∈ idxs, table.lookup i = some (g i)) :
    gatherFutures table idxs = some (idxs.map g) := by
  induction idxs with
  | nil => rfl
  | cons i rest ih =>
    unfold gatherFutures
    rw [h i (List.mem_cons_self i rest),
      ih (fun j hj => h j (List.mem_cons_of_mem i hj))]
    rfl

theorem range_map_getD (l : List String) :
    (List.range l.length).map (fun i => l.getD i "") = l := by
  apply List.ext_getElem
  · simp
  · intro i h1 h2
    simp only [List.getElem_map, List.getElem_range]
    rw [List.getD_eq_getElem?_getD, List.getElem?_eq_getElem h2, Option.getD_some]

/-- C7: whatever order the concurrent recognitions complete in — as long as
every dispatched future does complete — the gathered results come back in
ascending chunk index order, and the joined text equals the
submission-order join `joinBatch` (which lists chunk results by original
index); the completion order does not appear in the result. -/
theorem dispatchJoin_order_independent (recognize : List Int → RecResult)
    (chunks : List (List Int)) (order : List Nat)
    (h : ((List.range chunks.length).all (fun i => order.contains i)) = true) :
    dispatchJoin recognize chunks order = some (joinBatch recognize chunks) := by
  have h' : ∀ i, i < chunks.length → i ∈ order := by
    intro i hi
    have h2 := List.all_eq_true.mp h i (List.mem_range.mpr hi)
    simpa using h2
  unfold dispatchJoin joinBatch
  have hlen : (chunks.map (processAudioChunk recognize)).length = chunks.length := by
    simp
  have hgather :
      gatherFutures
        (futureTable (chunks.map (processAudioChunk recognize)) order)
        (List.range chunks.length) =
      some ((List.range chunks.length).map
        (fun i => (chunks.map (processAudioChunk recognize)).getD i "")) := by
    apply gatherFutures_complete
    intro i hi
    exact lookup_futureTable _ order i (h' i (List.mem_range.mp hi))
  rw [hgather, ← hlen, range_map_getD]
  rfl

theorem dispatchJoin_order_independent_witness :
    ((List.range ([[1], [2], [3]] : List (List Int)).length).all
        (fun i => ([2, 0, 1] : List Nat).contains i)) = true ∧
    dispatchJoin
      (fun c : List Int => RecResult.success
        (if c = [1] then "a" else if c = [2] then "b" else "c"))
      [[1], [2], [3]] [2, 0, 1] =
    some (joinBatch
      (fun c : List Int => RecResult.success
        (if c = [1] then "a" else if c = [2] then "b" else "c"))
      [[1], [2], [3]]) :=
  ⟨by decide,
    dispatchJoin_order_independent
      (fun c : List Int => RecResult.success
        (if c = [1] then "a" else if c = [2] then "b" else "c"))
      [[1], [2], [3]] [2, 0, 1] (by decide)⟩

end SpeechToText
